import Mathlib

/-!
Verification development for the inp2feap converter (src/src/inp2feap.py).
The Python source is shallowly embedded: the mode-switching `.inp` parser
(`InpFileParser.Parse`), the record constructors (`Node`, `Element`,
`NodeSet`, `ElSet`), the transformation passes and the deck writer of
`ConfigFileParser.Build` become executable Lean functions.  Python
exceptions (ValueError, BaseException, IOError, AttributeError) become an
explicit error type threaded through `Except`.  Floating point coordinates
are modelled as rationals; the coordinate arithmetic performed by the
program (comparisons, additions, halving) is exact on the inputs considered.
-/

set_option maxHeartbeats 1600000

deriving instance DecidableEq for Except

namespace Inp2feap

/-- Errors raised by the Python source: `valueError` stands for Python
ValueError (bad int()/float() conversion, bad argument arity),
`formatError` for the BaseException raised on a malformed generate-elset
line, `notFound` for IOError on a missing file, `attributeError` for the
AttributeError raised when `n.z` is read from a 2-D node. -/
inductive PErr
  | valueError
  | formatError
  | notFound
  | attributeError
  deriving Repr, DecidableEq

/-- Lexical category of one comma-separated token of a data line, as seen
by Python's int()/float() after the surrounding code's splitting.
`intTok n` is a token whose text is an integer literal (possibly padded by
whitespace), `floatTok q` a numeric literal that is not an integer literal,
`emptyTok` the empty string, `blankTok` a nonempty whitespace-only string,
`wordTok` any other text. -/
inductive Tok
  | intTok (n : Int)
  | floatTok (q : ℚ)
  | emptyTok
  | blankTok
  | wordTok (s : String)
  deriving Repr, DecidableEq

/-- Python int(token): succeeds exactly on integer literals. -/
def pyInt : Tok → Except PErr Int
  | .intTok n => .ok n
  | _ => .error .valueError

/-- Python float(token): succeeds on integer and floating literals. -/
def pyFloat : Tok → Except PErr ℚ
  | .intTok n => .ok (n : ℚ)
  | .floatTok q => .ok q
  | _ => .error .valueError

/-- Test modelling Python s != "" on a raw token. -/
def Tok.isEmptyStr : Tok → Bool
  | .emptyTok => true
  | _ => false

/-- Test modelling Python s.strip() != "" being false, i.e. the token is
empty or whitespace-only. -/
def Tok.isBlankStr : Tok → Bool
  | .emptyTok => true
  | .blankTok => true
  | _ => false

/-- Node record (class Node): id, x, y and, for 3-D nodes only, z.
Python sets the attribute z only in the 4-argument branch, so z is an
Option; reading z of a 2-D node raises AttributeError. -/
structure Node where
  id : Int
  x : ℚ
  y : ℚ
  z : Option ℚ
  deriving Repr, DecidableEq

/-- Spatial dimension of a node as set by Node.__init__ (2 or 3). -/
def Node.nDim (n : Node) : Int :=
  if n.z.isSome then 3 else 2

/-- Python n.z: AttributeError when the node is 2-D. -/
def Node.getZ (n : Node) : Except PErr ℚ :=
  match n.z with
  | some q => .ok q
  | none => .error .attributeError

/-- Element record (class Element): id, the node-id references, the
material number matn (default 1), the duplicate material list (default
empty) and numNodes, which Element.__init__ sets to len(args)-1. -/
structure Element where
  id : Int
  numNodes : Nat
  nodes : List Int
  matn : Int
  duplicate : List Int
  deriving Repr, DecidableEq

/-- NodeSet record (class NodeSet). -/
structure NodeSet where
  nodes : List Int
  name : String
  setBoun : String
  setLoad : String
  deriving Repr, DecidableEq

/-- ElSet record (class ElSet). -/
structure ElSet where
  elems : List Int
  name : String
  setMat : Int
  generate : Bool
  duplicate : List Int
  deriving Repr, DecidableEq

/-- Mesh record (class AbaqusMesh). -/
structure AbqMesh where
  nodes : List Node
  elems : List Element
  nsets : List NodeSet
  elsets : List ElSet
  deriving Repr, DecidableEq

/-- Custom input block record (class CustomInput). -/
structure CustomInput where
  block : String
  pos : Int
  cards : List String
  deriving Repr, DecidableEq

/-- Node.__init__ from the comma-split tokens of a data line: 3 tokens
give a 2-D node, 4 tokens a 3-D node, any other arity raises ValueError;
the id goes through int(), the coordinates through float(). -/
def mkNode (toks : List Tok) : Except PErr Node :=
  match toks with
  | [a, b, c] => do
      let i ← pyInt a
      let x ← pyFloat b
      let y ← pyFloat c
      .ok { id := i, x := x, y := y, z := none }
  | [a, b, c, d] => do
      let i ← pyInt a
      let x ← pyFloat b
      let y ← pyFloat c
      let zv ← pyFloat d
      .ok { id := i, x := x, y := y, z := some zv }
  | _ => .error .valueError

/-- Element.__init__ from the comma-split tokens of a data line: fewer
than 2 tokens raise ValueError; numNodes counts all remaining tokens,
while the node list keeps only tokens with len(a) > 0, each through
int(). -/
def mkElemFromToks (toks : List Tok) : Except PErr Element :=
  if toks.length < 2 then .error .valueError
  else do
    let i ← pyInt (toks.headD .emptyTok)
    let ns ← (toks.tail.filter (fun t => !t.isEmptyStr)).mapM pyInt
    .ok { id := i, numNodes := toks.length - 1, nodes := ns, matn := 1, duplicate := [] }

/-- Element.__init__ applied to a list of already-parsed integers (the
fixed-width reconstruction path and the duplication pass call it this
way): fewer than 2 values raise ValueError. -/
def elementOfInts (vals : List Int) : Except PErr Element :=
  if vals.length < 2 then .error .valueError
  else .ok { id := vals.headD 0, numNodes := vals.length - 1, nodes := vals.tail,
             matn := 1, duplicate := [] }

/-- Loop of the pre-declared-count element branch: while the buffer holds
at least size = 1 + nodesPerElem integers, the front size values are
consumed into one Element.  Returns the produced elements in order and
the leftover buffer. -/
def buildElems (size : Int) (buf : List Int) : Except PErr (List Element × List Int) :=
  if h : size ≤ (buf.length : Int) then
    if h2 : size.toNat ≤ 1 then .error .valueError
    else
      match elementOfInts (buf.take size.toNat) with
      | .error e => .error e
      | .ok el =>
        match buildElems size (buf.drop size.toNat) with
        | .error e => .error e
        | .ok (els, rest) => .ok (el :: els, rest)
  else .ok ([], buf)
termination_by buf.length
decreasing_by
  simp only [List.length_drop]
  omega

/-- One data line in READ_ELEMS mode with a pre-declared node count:
extend the pending buffer with the line's integers, then run the
reconstruction loop. -/
def feedElemInts (size : Int) (buf : List Int) (elems : List Element) (ints : List Int) :
    Except PErr (List Int × List Element) :=
  match buildElems size (buf ++ ints) with
  | .error e => .error e
  | .ok (newE, rest) => .ok (rest, elems ++ newE)

/-- Python xrange(a, b, step) for a nonzero step. -/
def pyRange (a b step : Int) : List Int :=
  if h : (0 < step ∧ a < b) ∨ (step < 0 ∧ b < a) then
    a :: pyRange (a + step) b step
  else []
termination_by (if 0 < step then b - a else a - b).toNat
decreasing_by
  rcases h with h | h
  · simp only [if_pos h.1]
    omega
  · have : ¬ (0 < step) := by omega
    simp only [if_neg this]
    omega

/-- Handler of one data line of a generate-marked Elset: exactly 3 tokens
are required (otherwise the BaseException modelled by formatError), each
parsed with int(); the generated references are xrange(start, end+1, inc),
where a zero increment raises ValueError inside xrange. -/
def genElsetLine (toks : List Tok) : Except PErr (List Int) :=
  if toks.length ≠ 3 then .error .formatError
  else do
    let a ← pyInt (toks.headD .emptyTok)
    let b ← pyInt ((toks.drop 1).headD .emptyTok)
    let c ← pyInt ((toks.drop 2).headD .emptyTok)
    if c = 0 then .error .valueError
    else .ok (pyRange a (b + 1) c)

/-- Integer tokens of an element data line: tokens equal to the empty
string are skipped, everything else goes through int(). -/
def parseElemInts (toks : List Tok) : Except PErr (List Int) :=
  (toks.filter (fun t => !t.isEmptyStr)).mapM pyInt

/-- Integer tokens of a set data line: tokens whose stripped text is empty
are skipped, everything else goes through int(). -/
def parseSetInts (toks : List Tok) : Except PErr (List Int) :=
  (toks.filter (fun t => !t.isBlankStr)).mapM pyInt

/-- Apply a function to the last element of a list, modelling mutation of
the most recently appended (current) set. -/
def updateLast (f : α → α) : List α → List α
  | [] => []
  | [x] => [f x]
  | x :: y :: xs => x :: updateLast f (y :: xs)

/-- Resolution of key=value pairs on a marker line: the last pair with the
given key wins, with a default when no pair carries the key. -/
def lastAssign (key dflt : String) (pairs : List (String × String)) : String :=
  pairs.foldl (fun acc p => if p.1 = key then p.2 else acc) dflt

/-- One physical line of the .inp file after lexical splitting: a marker
line (starts with a star) carries its first comma token, its parsed
key=value assignments and its bare tokens; a data line carries its
comma-split tokens. -/
inductive Line
  | marker (kind : String) (pairs : List (String × String)) (bares : List String)
  | data (toks : List Tok)
  deriving Repr, DecidableEq

/-- Reading modes of InpFileParser. -/
inductive Mode
  | readNodes
  | readElems
  | readNset
  | readElset
  | unknown
  deriving Repr, DecidableEq

/-- Diagnostics printed by the parser without aborting. -/
inductive Warn
  | dimMismatch (nid ndim prev : Int)
  | elemCountMismatch (eid : Int) (cnt : Nat) (prev : Int)
  | misaligned (cnt : Nat)
  deriving Repr, DecidableEq

/-- Running state of InpFileParser.Parse: the mode, whether nodesPerElem
was pre-declared, the running node count and dimensionality, the
accumulated records, the pending integer buffer of the element
reconstruction, the printed warnings and the ignored line numbers. -/
structure PState where
  mode : Mode
  numNodesKnown : Bool
  numNodes : Int
  nDim : Int
  nodes : List Node
  elems : List Element
  nsets : List NodeSet
  elsets : List ElSet
  elemInput : List Int
  warnings : List Warn
  ignored : List Nat
  deriving Repr, DecidableEq

/-- Initial parser state: READ_NODES mode, nDim initialised to 3,
numNodes to the pre-declared count or -1. -/
def initState (npe : Option Int) : PState :=
  { mode := .readNodes, numNodesKnown := npe.isSome, numNodes := npe.getD (-1),
    nDim := 3, nodes := [], elems := [], nsets := [], elsets := [],
    elemInput := [], warnings := [], ignored := [] }

/-- Handler of one line of the .inp file, following the body of the main
loop of InpFileParser.Parse. -/
def step (lineNo : Nat) (s : PState) (l : Line) : Except PErr PState :=
  match l with
  | .marker kind pairs bares =>
    if kind = "*Node" then .ok { s with mode := .readNodes }
    else if kind = "*Element" then
      .ok { s with
            mode := .readElems
            elemInput := [] }
    else if kind = "*Nset" then
      .ok { s with
            mode := .readNset
            nsets := s.nsets ++ [{ nodes := []
                                   name := lastAssign "nset" "UNKNOWN_NSET" pairs
                                   setBoun := ""
                                   setLoad := "" }] }
    else if kind = "*Elset" then
      .ok { s with
            mode := .readElset
            elsets := s.elsets ++ [{ elems := []
                                     name := lastAssign "elset" "UNKNOWN_ELSET" pairs
                                     setMat := 1
                                     generate := bares.contains "generate"
                                     duplicate := [] }] }
    else
      .ok { s with
            mode := .unknown
            warnings := if s.elemInput.length ≠ 0
                        then s.warnings ++ [.misaligned s.elemInput.length]
                        else s.warnings }
  | .data toks =>
    match s.mode with
    | .readNodes => do
        let n ← mkNode toks
        if s.nDim = -1 then
          .ok { s with
                nDim := n.nDim
                nodes := s.nodes ++ [n] }
        else if s.nDim ≠ n.nDim then
          .ok { s with
                nDim := n.nDim
                nodes := s.nodes ++ [n]
                warnings := s.warnings ++ [.dimMismatch n.id n.nDim s.nDim] }
        else .ok { s with nodes := s.nodes ++ [n] }
    | .readElems =>
        if s.numNodesKnown = false then do
          let e ← mkElemFromToks toks
          if s.numNodes = -1 then
            .ok { s with
                  numNodes := (e.numNodes : Int)
                  elems := s.elems ++ [e] }
          else if s.numNodes ≠ (e.numNodes : Int) then
            .ok { s with
                  numNodes := (e.numNodes : Int)
                  elems := s.elems ++ [e]
                  warnings := s.warnings ++ [.elemCountMismatch e.id e.numNodes s.numNodes] }
          else .ok { s with elems := s.elems ++ [e] }
        else do
          let ints ← parseElemInts toks
          match feedElemInts (1 + s.numNodes) s.elemInput s.elems ints with
          | .error e => .error e
          | .ok (rest, elems2) =>
            .ok { s with
                  elemInput := rest
                  elems := elems2 }
    | .readNset => do
        let ns ← parseSetInts toks
        .ok { s with nsets := updateLast (fun t => { t with nodes := t.nodes ++ ns }) s.nsets }
    | .readElset =>
        match s.elsets.getLast? with
        | none => .ok s
        | some cur =>
          if cur.generate then do
            let added ← genElsetLine toks
            .ok { s with elsets := updateLast (fun t => { t with elems := t.elems ++ added }) s.elsets }
          else do
            let es ← parseSetInts toks
            .ok { s with elsets := updateLast (fun t => { t with elems := t.elems ++ es }) s.elsets }
    | .unknown => .ok { s with ignored := s.ignored ++ [lineNo + 1] }

/-- Run the parser loop over the remaining lines, threading the line
number used for the ignored-lines report. -/
def parseLines : Nat → PState → List Line → Except PErr PState
  | _, s, [] => .ok s
  | n, s, l :: ls =>
    match step n s l with
    | .error e => .error e
    | .ok s2 => parseLines (n + 1) s2 ls

/-- InpFileParser.Parse: run the loop from the initial state and package
the accumulated records into a mesh. -/
def runParse (ls : List Line) (npe : Option Int) : Except PErr AbqMesh :=
  match parseLines 0 (initState npe) ls with
  | .error e => .error e
  | .ok s => .ok { nodes := s.nodes, elems := s.elems, nsets := s.nsets, elsets := s.elsets }

/-- Stable insertion of an element into a list: it goes immediately before
the first entry it compares less-or-equal to. -/
def sInsert (le : α → α → Bool) (x : α) : List α → List α
  | [] => [x]
  | y :: ys => if le x y then x :: y :: ys else y :: sInsert le x ys

/-- Stable ascending sort, modelling Python's sorted()/list.sort(): equal
keys keep their original relative order. -/
def sSort (le : α → α → Bool) : List α → List α
  | [] => []
  | x :: xs => sInsert le x (sSort le xs)

/-- NodeSet.__str__: the node list is sorted ascending, then the boun
block is built when setBoun is nonempty and the load block when setLoad
is nonempty; the local s is rebound (not appended) by the load branch and
is unbound when both cards are empty. -/
def nsetStr (ns : NodeSet) : Option String :=
  let sortedNodes := sSort (fun a b : Int => decide (a ≤ b)) ns.nodes
  let s : Option String := none
  let s := if ns.setBoun.length > 0 then
      some (sortedNodes.foldl (fun acc nd => acc ++ toString nd ++ ", 0, " ++ ns.setBoun ++ "\n")
            ("boun ** NSET=" ++ ns.name ++ "\n"))
    else s
  let s := if ns.setLoad.length > 0 then
      some (sortedNodes.foldl (fun acc nd => acc ++ toString nd ++ ", 0, " ++ ns.setLoad ++ "\n")
            ("load ** NSET=" ++ ns.name ++ "\n"))
    else s
  s

/-- Element.__str__: id, material number and the node references,
comma-separated. -/
def elemStr (e : Element) : String :=
  (e.nodes.foldl (fun acc n => acc ++ ", " ++ toString n)
    (toString e.id ++ ", " ++ toString e.matn)) ++ "\n"

/-- Node.__str__ with the numeric field widths dropped: id, the constant
generation flag 0 and the coordinates. -/
def nodeStr (n : Node) : String :=
  match n.z with
  | none => toString n.id ++ ", 0, " ++ toString n.x ++ ", " ++ toString n.y ++ "\n"
  | some zv => toString n.id ++ ", 0, " ++ toString n.x ++ ", " ++ toString n.y ++ ", " ++ toString zv ++ "\n"

/-- CustomInput.__str__: the block keyword, a line break, then the cards
joined by line breaks. -/
def customStr (ci : CustomInput) : String :=
  ci.block ++ "\n" ++ String.intercalate "\n" ci.cards

/-- Configuration data extracted by ConfigFileParser._ParseConfig, as used
by Build: file names, the optional pre-declared node count, the centering
flag, the configured set edits and the custom input blocks in declaration
order. -/
structure Config where
  input : String
  output : String
  header : Option String
  footer : Option String
  nodesPerElem : Option Int
  centerMesh : Bool
  conf_elsets : List ElSet
  conf_nsets : List NodeSet
  customInputs : List CustomInput
  deriving Repr, DecidableEq

/-- Effective pre-declared node count passed to the mesh parser: Build
tests the truthiness of nodesPerElem, so a configured value of 0 behaves
like no value at all. -/
def effNodesPerElem (cfg : Config) : Option Int :=
  match cfg.nodesPerElem with
  | some k => if k = 0 then none else some k
  | none => none

/-- Pass 1 of Build: for each configured elset, the first mesh elset with
the same name receives the configured material number and, when nonempty,
the configured duplicate list. -/
def applyConfElset (ce : ElSet) : List ElSet → List ElSet
  | [] => []
  | es :: rest =>
    if ce.name = es.name then
      { es with
        setMat := ce.setMat
        duplicate := if ce.duplicate.length > 0 then ce.duplicate else es.duplicate } :: rest
    else es :: applyConfElset ce rest

/-- All configured elset edits applied in order. -/
def applyConfElsets (ces : List ElSet) (elsets : List ElSet) : List ElSet :=
  ces.foldl (fun acc ce => applyConfElset ce acc) elsets

/-- Pass 2 of Build: every element takes the material number of each elset
containing its id, together with the duplicate list of such an elset when
that list is nonempty; the last containing elset in iteration order
wins. -/
def applyMat (elsets : List ElSet) (e : Element) : Element :=
  elsets.foldl
    (fun e2 es =>
      if e2.id ∈ es.elems then
        { e2 with
          matn := es.setMat
          duplicate := if es.duplicate.length > 0 then es.duplicate else e2.duplicate }
      else e2) e

/-- Id of the last element of the original list, Python mesh.elems[-1].id;
never consulted when the list is empty. -/
def lastElemId (elems : List Element) : Int :=
  match elems.getLast? with
  | some e => e.id
  | none => 0

/-- Inner loop of the duplication pass for one element: one new element
per duplicate entry, with id = lastId + (number of new elements already
collected) + 1, the same node references and that entry as material
number; Element raises ValueError when the node list is empty. -/
def dupOne (lastId : Int) (e : Element) (acc : List Element) : Except PErr (List Element) :=
  e.duplicate.foldlM
    (fun acc2 mt =>
      if e.nodes.length = 0 then .error .valueError
      else .ok (acc2 ++ [{ id := lastId + (acc2.length : Int) + 1
                           numNodes := e.nodes.length
                           nodes := e.nodes
                           matn := mt
                           duplicate := [] }])) acc

/-- Pass 3 of Build: collect the duplicates of every element carrying a
nonempty duplicate list, then extend the element list after the full
pass. -/
def duplicatePass (elems : List Element) : Except PErr (List Element) :=
  match elems.foldlM
    (fun acc e => if e.duplicate.length > 0 then dupOne (lastElemId elems) e acc else .ok acc)
    ([] : List Element) with
  | .error e => .error e
  | .ok newE => .ok (elems ++ newE)

/-- Pass 4 of Build: for each configured nset, the first mesh nset with
the same name receives the configured boun and load cards. -/
def applyConfNset (cn : NodeSet) : List NodeSet → List NodeSet
  | [] => []
  | ns :: rest =>
    if cn.name = ns.name then
      { ns with
        setBoun := cn.setBoun
        setLoad := cn.setLoad } :: rest
    else ns :: applyConfNset cn rest

/-- All configured nset edits applied in order. -/
def applyConfNsets (cns : List NodeSet) (nsets : List NodeSet) : List NodeSet :=
  cns.foldl (fun acc cn => applyConfNset cn acc) nsets

/-- Sentinel used by Build's bounding-box scan, the float 1.e12. -/
def sentinel : ℚ := 1000000000000

/-- Bounding-box scan of the centering pass: starting from the sentinels,
each node lowers the minima and raises the maxima through strict
comparisons; reading z of a 2-D node raises AttributeError. -/
def bboxScan (nodes : List Node) : Except PErr (ℚ × ℚ × ℚ × ℚ × ℚ × ℚ) :=
  nodes.foldlM
    (fun st n => do
      let zv ← n.getZ
      let (xMin, yMin, zMin, xMax, yMax, zMax) := st
      let xMin := if n.x < xMin then n.x else xMin
      let yMin := if n.y < yMin then n.y else yMin
      let zMin := if zv < zMin then zv else zMin
      let xMax := if n.x > xMax then n.x else xMax
      let yMax := if n.y > yMax then n.y else yMax
      let zMax := if zv > zMax then zv else zMax
      .ok (xMin, yMin, zMin, xMax, yMax, zMax))
    (sentinel, sentinel, sentinel, -sentinel, -sentinel, -sentinel)

/-- Translation of one node by (dx, dy, dz); reading z of a 2-D node
raises AttributeError. -/
def shiftNode (dx dy dz : ℚ) (n : Node) : Except PErr Node := do
  let zv ← n.getZ
  .ok { n with
        x := n.x + dx
        y := n.y + dy
        z := some (zv + dz) }

/-- Centering pass of Build: compute the bounding box, derive the
translation moving its centre to the origin and, unless all three deltas
are exactly zero, translate every node. -/
def centerMeshNodes (nodes : List Node) : Except PErr (List Node) := do
  let (xMin, yMin, zMin, xMax, yMax, zMax) ← bboxScan nodes
  let lx := xMax - xMin
  let ly := yMax - yMin
  let lz := zMax - zMin
  let dx := -xMin - lx / 2
  let dy := -yMin - ly / 2
  let dz := -zMin - lz / 2
  if dx = dy ∧ dy = dz ∧ dz = 0 then .ok nodes
  else nodes.mapM (shiftNode dx dy dz)

/-- All transformation passes of Build between parsing and writing, in
source order: elset binding, material propagation, duplication, nset
binding and optional centering. -/
def transform (cfg : Config) (mesh : AbqMesh) : Except PErr AbqMesh := do
  let elsets2 := applyConfElsets cfg.conf_elsets mesh.elsets
  let elems2 := mesh.elems.map (applyMat elsets2)
  let elems3 ← duplicatePass elems2
  let nsets2 := applyConfNsets cfg.conf_nsets mesh.nsets
  let nodes2 ← if cfg.centerMesh then centerMeshNodes mesh.nodes else .ok mesh.nodes
  .ok { nodes := nodes2, elems := elems3, nsets := nsets2, elsets := elsets2 }

/-- Comparison key of the stable sort applied to the custom input blocks
in _ParseConfig. -/
def posLe (a b : CustomInput) : Bool :=
  decide (a.pos ≤ b.pos)

/-- Custom input blocks in the order the writer emits them before the
nset boun and load blocks: the sorted list is scanned until the first
block with a nonnegative position, where the loop breaks. -/
def customBefore (cis : List CustomInput) : List CustomInput :=
  (sSort posLe cis).takeWhile (fun ci => decide (ci.pos < 0))

/-- Custom input blocks in the order the writer emits them after the nset
boun and load blocks: the sorted list is rescanned, skipping every block
with a negative position. -/
def customAfter (cis : List CustomInput) : List CustomInput :=
  (sSort posLe cis).filter (fun ci => decide (¬ ci.pos < 0))

/-- Deck assembly of Build: header, the coor block, the elem block, the
negative-position custom blocks, the boun and load blocks of every nset
carrying a nonempty card, the remaining custom blocks and the footer;
every custom and nset block is framed by blank lines. -/
def render (cfg : Config) (hdr ftr : String) (mesh : AbqMesh) : String :=
  (if cfg.header.isSome then hdr ++ "\n" else "")
  ++ "coor\n"
  ++ String.join (mesh.nodes.map nodeStr)
  ++ "\nelem\n"
  ++ String.join (mesh.elems.map elemStr)
  ++ String.join ((customBefore cfg.customInputs).map (fun ci => "\n" ++ customStr ci ++ "\n"))
  ++ String.join (mesh.nsets.map (fun ns =>
       if ns.setBoun.length > 0 ∨ ns.setLoad.length > 0 then
         "\n" ++ (nsetStr ns).getD "" ++ "\n"
       else ""))
  ++ String.join ((customAfter cfg.customInputs).map (fun ci => "\n" ++ customStr ci ++ "\n"))
  ++ (if cfg.footer.isSome then "\n" ++ ftr else "")

/-- Content of one file visible to the program: either literal text (for
header, footer and the written output) or a tokenised mesh input file. -/
inductive FileData
  | text (s : String)
  | inp (ls : List Line)
  deriving Repr, DecidableEq

/-- File system visible to one run, an association list from path to
content. -/
structure World where
  files : List (String × FileData)
  deriving Repr, DecidableEq

/-- Look a file up by path. -/
def World.lookup (w : World) (p : String) : Option FileData :=
  (w.files.find? (fun q => q.1 = p)).map (fun q => q.2)

/-- Open a file for reading as text; a missing path raises IOError. -/
def readText (w : World) (p : String) : Except PErr String :=
  match w.lookup p with
  | some (.text s) => .ok s
  | some (.inp _) => .ok ""
  | none => .error .notFound

/-- Open an optional text file: an absent configuration entry reads as the
empty string without touching the file system. -/
def readOptText (w : World) : Option String → Except PErr String
  | some p => readText w p
  | none => .ok ""

/-- Open a mesh input file; a missing path raises IOError. -/
def readInp (w : World) (p : String) : Except PErr (List Line) :=
  match w.lookup p with
  | some (.inp ls) => .ok ls
  | some (.text _) => .ok []
  | none => .error .notFound

/-- Create or overwrite a file. -/
def writeFile (w : World) (p : String) (s : String) : World :=
  { files := (p, FileData.text s) :: w.files.filter (fun q => !(q.1 = p)) }

/-- ConfigFileParser.Build after the configuration has been parsed: read
and parse the mesh input, read header and footer, transform the mesh and
only then open the output path for writing.  The returned world reflects
every write performed; every failure before the final write leaves the
world untouched. -/
def build (cfg : Config) (w : World) : World × Except PErr Unit :=
  match readInp w cfg.input with
  | .error e => (w, .error e)
  | .ok ls =>
    match runParse ls (effNodesPerElem cfg) with
    | .error e => (w, .error e)
    | .ok mesh =>
      match readOptText w cfg.header with
      | .error e => (w, .error e)
      | .ok hdr =>
        match readOptText w cfg.footer with
        | .error e => (w, .error e)
        | .ok ftr =>
          match transform cfg mesh with
          | .error e => (w, .error e)
          | .ok mesh2 => (writeFile w cfg.output (render cfg hdr ftr mesh2), .ok ())

/-- Greedy decomposition of an integer stream into its full chunks of n
values, used to characterise the element-reconstruction loop. -/
def chunkExact (n : Nat) (l : List Int) : List (List Int) :=
  if h : 0 < n ∧ n ≤ l.length then l.take n :: chunkExact n (l.drop n) else []
termination_by l.length
decreasing_by
  simp only [List.length_drop]
  omega

/-- Values left over after removing the full chunks of n values. -/
def chunkRest (n : Nat) (l : List Int) : List Int :=
  if h : 0 < n ∧ n ≤ l.length then chunkRest n (l.drop n) else l
termination_by l.length
decreasing_by
  simp only [List.length_drop]
  omega

/-- Element built from one full chunk: first value the id, the rest the
node references. -/
def elemOfChunk (c : List Int) : Element :=
  { id := c.headD 0, numNodes := c.length - 1, nodes := c.tail, matn := 1, duplicate := [] }

/-- Minimum of a list of rationals (meaningful on nonempty lists). -/
def listMinQ (l : List ℚ) : ℚ :=
  l.foldl min (l.headD 0)

/-- Maximum of a list of rationals (meaningful on nonempty lists). -/
def listMaxQ (l : List ℚ) : ℚ :=
  l.foldl max (l.headD 0)

/-- Pairs examined by the duplication pass, in visiting order: every
element joined with every entry of its duplicate list. -/
def dupPairs (elems : List Element) : List (Element × Int) :=
  elems.foldr (fun e acc => e.duplicate.map (fun m => (e, m)) ++ acc) []

/-- New element the duplication pass builds for the i-th visited pair. -/
def mkDup (lastId : Int) (i : Nat) (p : Element × Int) : Element :=
  { id := lastId + (i : Int) + 1, numNodes := p.1.nodes.length, nodes := p.1.nodes,
    matn := p.2, duplicate := [] }

/-- Elements the duplication pass builds for a pair sequence, the first
pair being the i-th new element overall. -/
def dupAll (lastId : Int) : Nat → List (Element × Int) → List Element
  | _, [] => []
  | i, p :: ps => mkDup lastId i p :: dupAll lastId (i + 1) ps

/-- The x coordinates of a node list. -/
def xsOf (nodes : List Node) : List ℚ :=
  nodes.map (fun n => n.x)

/-- The y coordinates of a node list. -/
def ysOf (nodes : List Node) : List ℚ :=
  nodes.map (fun n => n.y)

/-- The z coordinates of a node list (0 for a 2-D node, never relevant
where this is used since centering requires every node to be 3-D). -/
def zsOf (nodes : List Node) : List ℚ :=
  nodes.map (fun n => n.z.getD 0)

/-- The x translation computed by the centering pass over the true
bounding box. -/
def dxOf (nodes : List Node) : ℚ :=
  -(listMinQ (xsOf nodes)) - (listMaxQ (xsOf nodes) - listMinQ (xsOf nodes)) / 2

/-- The y translation computed by the centering pass. -/
def dyOf (nodes : List Node) : ℚ :=
  -(listMinQ (ysOf nodes)) - (listMaxQ (ysOf nodes) - listMinQ (ysOf nodes)) / 2

/-- The z translation computed by the centering pass. -/
def dzOf (nodes : List Node) : ℚ :=
  -(listMinQ (zsOf nodes)) - (listMaxQ (zsOf nodes) - listMinQ (zsOf nodes)) / 2

/-- Translation of a 3-D node by (dx, dy, dz), the total counterpart of
shiftNode on nodes whose z attribute is set. -/
def shiftOkNode (dx dy dz : ℚ) (n : Node) : Node :=
  { n with
    x := n.x + dx
    y := n.y + dy
    z := some (n.z.getD 0 + dz) }

/-- Binding a successful Except value applies the continuation. -/
theorem ebind_ok {ε α β : Type} (a : α) (f : α → Except ε β) :
    (Except.ok a >>= f) = f a := rfl

/-- Pure in the Except monad is ok. -/
theorem epure_eq {ε α : Type} (a : α) : (pure a : Except ε α) = Except.ok a := rfl

/-- Membership in a Python range with positive step: exactly the values
a + step * j below the bound. -/
theorem pyRange_mem (a b step : Int) (hs : 0 < step) (x : Int) :
    x ∈ pyRange a b step ↔ ∃ j : Nat, x = a + step * j ∧ x < b := by
  rw [pyRange]
  split
  case isTrue h =>
    have hab : a < b := by
      rcases h with ⟨_, h2⟩ | ⟨h1, _⟩
      · exact h2
      · omega
    rw [List.mem_cons, pyRange_mem (a + step) b step hs x]
    constructor
    · rintro (rfl | ⟨j, rfl, hj⟩)
      · exact ⟨0, by simp, hab⟩
      · refine ⟨j + 1, by push_cast; ring, hj⟩
    · rintro ⟨j, rfl, hj⟩
      cases j with
      | zero => left; simp
      | succ j =>
        right
        refine ⟨j, by push_cast; ring, hj⟩
  case isFalse h =>
    have hba : b ≤ a := by
      rcases not_or.mp h with ⟨h1, _⟩
      rcases not_and_or.mp h1 with h2 | h2
      · omega
      · omega
    simp only [List.not_mem_nil, false_iff, not_exists, not_and]
    rintro j rfl
    have : (0 : Int) ≤ step * j := mul_nonneg (le_of_lt hs) (Int.ofNat_nonneg j)
    omega
termination_by (b - a).toNat
decreasing_by
  omega

/-- C2 (code bug evaluation): for a NodeSet whose boundary card and load
card are both nonempty, NodeSet.__str__ returns only the load block; the
boun block built by the first branch is discarded because the load branch
rebinds the accumulator instead of appending to it. -/
theorem c2_both_cards_yield_only_load_block :
    nsetStr { nodes := [2, 1], name := "A", setBoun := "1,1,1", setLoad := "2" } =
      some "load ** NSET=A\n1, 0, 2\n2, 0, 2\n" := by
  decide

/-- C3 (counterexample): parsing an input whose first node line has 2
coordinates does set the running dimensionality to 2, but it also logs a
dimensionality-mismatch anomaly, because the running value is initialised
to 3 and the branch testing for an unset value compares against -1 and
never fires. -/
theorem c3_first_2d_node_logs_mismatch :
    parseLines 0 (initState none) [Line.data [Tok.intTok 1, Tok.intTok 0, Tok.intTok 0]] =
      Except.ok { mode := Mode.readNodes, numNodesKnown := false, numNodes := -1, nDim := 2,
                  nodes := [{ id := 1, x := 0, y := 0, z := none }], elems := [], nsets := [],
                  elsets := [], elemInput := [], warnings := [Warn.dimMismatch 1 2 3],
                  ignored := [] } := by
  decide

/-- C3 (amended): the running dimensionality starts at 3 rather than
being fixed by the first node record; every node whose dimensionality
differs from the running value — including a first node with 2
coordinates — logs a non-fatal mismatch anomaly and updates the running
value to its own (last-write-wins), while a node matching the running
value changes nothing and logs nothing. -/
theorem c3_dim_last_write_wins (npe : Option Int) (k : Nat) (s : PState) (toks : List Tok)
    (n : Node) (hm : s.mode = Mode.readNodes) (hn : mkNode toks = Except.ok n)
    (hd : s.nDim ≠ -1) :
    (initState npe).nDim = 3 ∧
    (s.nDim = n.nDim →
      step k s (Line.data toks) = Except.ok { s with nodes := s.nodes ++ [n] }) ∧
    (s.nDim ≠ n.nDim →
      step k s (Line.data toks) =
        Except.ok { s with nDim := n.nDim
                           nodes := s.nodes ++ [n]
                           warnings := s.warnings ++ [Warn.dimMismatch n.id n.nDim s.nDim] }) := by
  refine ⟨rfl, ?_, ?_⟩ <;> intro h <;>
    simp [step, hm, hn, hd, h, Bind.bind, Except.bind]

/-- C3 (witness): the amended statement evaluated at the initial state and
a concrete 2-coordinate node line: the mismatch branch fires and records
the anomaly while updating the dimensionality to 2. -/
theorem c3_dim_witness :
    step 0 (initState none) (Line.data [Tok.intTok 7, Tok.intTok 0, Tok.intTok 0]) =
      Except.ok { initState none with
                  nDim := 2
                  nodes := [{ id := 7, x := 0, y := 0, z := none }]
                  warnings := [Warn.dimMismatch 7 2 3] } := by
  have h := c3_dim_last_write_wins none 0 (initState none)
    [Tok.intTok 7, Tok.intTok 0, Tok.intTok 0]
    { id := 7, x := 0, y := 0, z := none } rfl (by decide) (by decide)
  exact h.2.2 (by decide)

/-- C6: a data line of a generate-marked element set fails with a
FormatError unless it carries exactly three integer tokens; on tokens
(start, end, inc) with positive increment the appended references are
exactly the values start + inc * j that do not exceed end. -/
theorem c6_generate_elset (toks : List Tok) (a e inc : Int) (hinc : 0 < inc) :
    (toks.length ≠ 3 → genElsetLine toks = Except.error PErr.formatError) ∧
    genElsetLine [Tok.intTok a, Tok.intTok e, Tok.intTok inc] =
      Except.ok (pyRange a (e + 1) inc) ∧
    (∀ x : Int, x ∈ pyRange a (e + 1) inc ↔ ∃ j : Nat, x = a + inc * j ∧ x ≤ e) := by
  refine ⟨fun h => by simp [genElsetLine, h], ?_, ?_⟩
  · have hne : inc ≠ 0 := by omega
    simp [genElsetLine, pyInt, hne, Bind.bind, Except.bind]
  · intro x
    rw [pyRange_mem a (e + 1) inc hinc x]
    constructor
    · rintro ⟨j, rfl, hj⟩
      exact ⟨j, rfl, by omega⟩
    · rintro ⟨j, rfl, hj⟩
      exact ⟨j, rfl, by omega⟩

/-- C6 (witness): the generate line "1, 10, 2" produces exactly the
references 1, 3, 5, 7, 9, and a two-token line fails with a
FormatError. -/
theorem c6_generate_witness :
    genElsetLine [Tok.intTok 1, Tok.intTok 10, Tok.intTok 2] = Except.ok (pyRange 1 11 2) ∧
    pyRange 1 11 2 = [1, 3, 5, 7, 9] ∧
    genElsetLine [Tok.intTok 1, Tok.intTok 10] = Except.error PErr.formatError := by
  refine ⟨(c6_generate_elset [] 1 10 2 (by decide)).2.1, ?_, ?_⟩
  · simp [pyRange]
  · exact (c6_generate_elset [Tok.intTok 1, Tok.intTok 10] 1 10 2 (by decide)).1 (by decide)

/-- Insertion produces a permutation of consing. -/
theorem sInsert_perm (le : α → α → Bool) (x : α) :
    ∀ s : List α, (sInsert le x s).Perm (x :: s) := by
  intro s
  induction s with
  | nil => simp [sInsert]
  | cons y ys ih =>
    rw [sInsert]
    by_cases h : le x y
    · rw [if_pos h]
    · rw [if_neg h]
      exact (ih.cons y).trans (List.Perm.swap x y ys)

/-- The stable sort produces a permutation of its input. -/
theorem sSort_perm (le : α → α → Bool) : ∀ l : List α, (sSort le l).Perm l := by
  intro l
  induction l with
  | nil => simp [sSort]
  | cons x xs ih =>
    rw [sSort]
    exact (sInsert_perm le x (sSort le xs)).trans (ih.cons x)

/-- Membership in an insertion. -/
theorem sInsert_mem (le : α → α → Bool) (x a : α) (s : List α) :
    a ∈ sInsert le x s ↔ a = x ∨ a ∈ s := by
  rw [(sInsert_perm le x s).mem_iff, List.mem_cons]

/-- Inserting into a position-sorted list keeps it position-sorted. -/
theorem sInsert_pairwise (x : CustomInput) (s : List CustomInput)
    (hs : s.Pairwise (fun a b => a.pos ≤ b.pos)) :
    (sInsert posLe x s).Pairwise (fun a b => a.pos ≤ b.pos) := by
  induction s with
  | nil => simp [sInsert]
  | cons y ys ih =>
    rw [List.pairwise_cons] at hs
    rw [sInsert]
    by_cases h : posLe x y
    · rw [if_pos h]
      have hxy : x.pos ≤ y.pos := by
        simpa [posLe] using h
      rw [List.pairwise_cons]
      refine ⟨?_, List.pairwise_cons.mpr hs⟩
      intro a ha
      rcases List.mem_cons.mp ha with rfl | ha2
      · exact hxy
      · exact le_trans hxy (hs.1 a ha2)
    · rw [if_neg h]
      have hyx : y.pos ≤ x.pos := by
        simp only [posLe, decide_eq_true_eq] at h
        omega
      rw [List.pairwise_cons]
      refine ⟨?_, ih hs.2⟩
      intro a ha
      rcases (sInsert_mem posLe x a ys).mp ha with rfl | ha2
      · exact hyx
      · exact hs.1 a ha2

/-- The stable sort orders the blocks by ascending position. -/
theorem sSort_pairwise (l : List CustomInput) :
    (sSort posLe l).Pairwise (fun a b => a.pos ≤ b.pos) := by
  induction l with
  | nil => simp [sSort]
  | cons x xs ih => exact sInsert_pairwise x (sSort posLe xs) ih

/-- Insertion puts the new block before every block of equal position, so
restricting to one exact position shows it first. -/
theorem sInsert_filter_key (p : Int) (x : CustomInput) :
    ∀ s : List CustomInput,
      (sInsert posLe x s).filter (fun a => decide (a.pos = p)) =
        if x.pos = p then x :: s.filter (fun a => decide (a.pos = p))
        else s.filter (fun a => decide (a.pos = p)) := by
  intro s
  induction s with
  | nil =>
    rw [sInsert]
    by_cases hx : x.pos = p <;> simp [hx]
  | cons y ys ih =>
    rw [sInsert]
    by_cases h : posLe x y
    · rw [if_pos h]
      by_cases hx : x.pos = p <;> simp [hx, List.filter_cons]
    · rw [if_neg h]
      have hyx : y.pos < x.pos := by
        simp only [posLe, decide_eq_true_eq] at h
        omega
      by_cases hx : x.pos = p
      · have hy : ¬ y.pos = p := by omega
        simp [List.filter_cons, hy, ih, hx]
      · by_cases hy : y.pos = p <;> simp [List.filter_cons, hy, ih, hx]

/-- Stability of the sort: the blocks of one exact position keep their
original relative order. -/
theorem sSort_filter_key (p : Int) :
    ∀ l : List CustomInput,
      (sSort posLe l).filter (fun a => decide (a.pos = p)) =
        l.filter (fun a => decide (a.pos = p)) := by
  intro l
  induction l with
  | nil => rfl
  | cons x xs ih =>
    rw [sSort, sInsert_filter_key p x (sSort posLe xs), ih]
    by_cases hx : x.pos = p <;> simp [hx, List.filter_cons]

/-- On a position-sorted list, scanning until the first nonnegative
position collects exactly the negative-position blocks. -/
theorem takeWhile_neg_eq_filter :
    ∀ s : List CustomInput, s.Pairwise (fun a b => a.pos ≤ b.pos) →
      s.takeWhile (fun ci => decide (ci.pos < 0)) =
        s.filter (fun ci => decide (ci.pos < 0)) := by
  intro s
  induction s with
  | nil => intro _; rfl
  | cons x xs ih =>
    intro hs
    rw [List.pairwise_cons] at hs
    by_cases hx : x.pos < 0
    · simp [List.takeWhile_cons, List.filter_cons, hx, ih hs.2]
    · have hnil : List.filter (fun ci => decide (ci.pos < 0)) xs = [] := by
        rw [List.filter_eq_nil_iff]
        intro a ha
        have := hs.1 a ha
        simp only [decide_eq_true_eq]
        omega
      simp [List.takeWhile_cons, List.filter_cons, hx, hnil]

/-- C7: the writer emits the custom input blocks in two groups split by
the sign of the position: the blocks with negative position before the
nset boun and load blocks and the blocks with nonnegative position after
them, each group in ascending position order with ties kept in original
declaration order (stable sort). -/
theorem c7_custom_block_ordering (cis : List CustomInput) :
    (customBefore cis).Perm (cis.filter (fun ci => decide (ci.pos < 0))) ∧
    (customAfter cis).Perm (cis.filter (fun ci => decide (0 ≤ ci.pos))) ∧
    (customBefore cis).Pairwise (fun a b => a.pos ≤ b.pos) ∧
    (customAfter cis).Pairwise (fun a b => a.pos ≤ b.pos) ∧
    (∀ p : Int, p < 0 →
      (customBefore cis).filter (fun a => decide (a.pos = p)) =
        cis.filter (fun a => decide (a.pos = p))) ∧
    (∀ p : Int, 0 ≤ p →
      (customAfter cis).filter (fun a => decide (a.pos = p)) =
        cis.filter (fun a => decide (a.pos = p))) := by
  have hbf : customBefore cis = (sSort posLe cis).filter (fun ci => decide (ci.pos < 0)) := by
    rw [customBefore, takeWhile_neg_eq_filter (sSort posLe cis) (sSort_pairwise cis)]
  have haf : customAfter cis = (sSort posLe cis).filter (fun ci => decide (0 ≤ ci.pos)) := by
    rw [customAfter]
    exact List.filter_congr (fun a _ => by
      rw [decide_eq_decide]
      omega)
  refine ⟨?_, ?_, ?_, ?_, ?_, ?_⟩
  · rw [hbf]
    exact (sSort_perm posLe cis).filter _
  · rw [haf]
    exact (sSort_perm posLe cis).filter _
  · rw [hbf]
    exact List.Pairwise.sublist (List.filter_sublist _) (sSort_pairwise cis)
  · rw [haf]
    exact List.Pairwise.sublist (List.filter_sublist _) (sSort_pairwise cis)
  · intro p hp
    rw [hbf, List.filter_filter]
    rw [List.filter_congr (fun a _ => ?_), sSort_filter_key p cis]
    by_cases ha : a.pos = p
    · simp [ha, hp]
    · simp [ha]
  · intro p hp
    rw [haf, List.filter_filter]
    rw [List.filter_congr (fun a _ => ?_), sSort_filter_key p cis]
    by_cases ha : a.pos = p
    · simp [ha]
      omega
    · simp [ha]

/-- C7 (witness): the blocks with positions [-1, 2, -5, 0] are emitted as
(-5, -1) before the nset blocks and (0, 2) after them, and each group is
sorted ascending. -/
theorem c7_ordering_witness :
    (customBefore [{ block := "a", pos := -1, cards := [] },
                   { block := "b", pos := 2, cards := [] },
                   { block := "c", pos := -5, cards := [] },
                   { block := "d", pos := 0, cards := [] }]).map (fun ci => ci.pos) = [-5, -1] ∧
    (customAfter [{ block := "a", pos := -1, cards := [] },
                  { block := "b", pos := 2, cards := [] },
                  { block := "c", pos := -5, cards := [] },
                  { block := "d", pos := 0, cards := [] }]).map (fun ci => ci.pos) = [0, 2] ∧
    (customBefore [{ block := "a", pos := -1, cards := [] },
                   { block := "b", pos := 2, cards := [] },
                   { block := "c", pos := -5, cards := [] },
                   { block := "d", pos := 0, cards := [] }]).Pairwise
      (fun a b => a.pos ≤ b.pos) := by
  refine ⟨by decide, by decide, ?_⟩
  exact (c7_custom_block_ordering
    [{ block := "a", pos := -1, cards := [] },
     { block := "b", pos := 2, cards := [] },
     { block := "c", pos := -5, cards := [] },
     { block := "d", pos := 0, cards := [] }]).2.2.1

/-- The strict-compare lowering step of the bounding-box scan is min. -/
theorem qmin_eq_min (a v : ℚ) : (if v < a then v else a) = min a v := by
  rw [min_def]
  by_cases h : v < a
  · rw [if_pos h, if_neg (by linarith)]
  · rw [if_neg h, if_pos (by linarith)]

/-- The strict-compare raising step of the bounding-box scan is max. -/
theorem qmax_eq_max (a v : ℚ) : (if v > a then v else a) = max a v := by
  rw [max_def]
  by_cases h : a ≤ v
  · rw [if_pos h]
    by_cases h2 : v > a
    · rw [if_pos h2]
    · rw [if_neg h2]
      exact le_antisymm h (not_lt.mp h2)
  · rw [if_neg h, if_neg (by linarith)]

/-- Folding the strict-compare lowering step is folding min. -/
theorem foldl_qmin_min (l : List ℚ) :
    ∀ init : ℚ, l.foldl (fun a v => if v < a then v else a) init = l.foldl min init := by
  induction l with
  | nil => intro init; rfl
  | cons a t ih =>
    intro init
    rw [List.foldl_cons, List.foldl_cons, qmin_eq_min, ih]

/-- Folding the strict-compare raising step is folding max. -/
theorem foldl_qmax_max (l : List ℚ) :
    ∀ init : ℚ, l.foldl (fun a v => if v > a then v else a) init = l.foldl max init := by
  induction l with
  | nil => intro init; rfl
  | cons a t ih =>
    intro init
    rw [List.foldl_cons, List.foldl_cons, qmax_eq_max, ih]

/-- A min fold from an upper-bounding start value computes the minimum of
a nonempty list. -/
theorem foldl_min_absorbed (l : List ℚ) (init : ℚ) (hne : l ≠ [])
    (hb : ∀ v ∈ l, v ≤ init) : l.foldl min init = listMinQ l := by
  cases l with
  | nil => exact absurd rfl hne
  | cons a t =>
    rw [List.foldl_cons, min_eq_right (hb a (by simp)), listMinQ]
    simp [List.foldl_cons]

/-- A max fold from a lower-bounding start value computes the maximum of
a nonempty list. -/
theorem foldl_max_absorbed (l : List ℚ) (init : ℚ) (hne : l ≠ [])
    (hb : ∀ v ∈ l, init ≤ v) : l.foldl max init = listMaxQ l := by
  cases l with
  | nil => exact absurd rfl hne
  | cons a t =>
    rw [List.foldl_cons, max_eq_right (hb a (by simp)), listMaxQ]
    simp [List.foldl_cons]

/-- Translating every entry translates the minimum. -/
theorem listMinQ_map_add (l : List ℚ) (d : ℚ) (hne : l ≠ []) :
    listMinQ (l.map (fun v => v + d)) = listMinQ l + d := by
  have haux : ∀ (t : List ℚ) (i : ℚ),
      (t.map (fun v => v + d)).foldl min (i + d) = t.foldl min i + d := by
    intro t
    induction t with
    | nil => intro i; rfl
    | cons b s ih =>
      intro i
      rw [List.map_cons, List.foldl_cons, List.foldl_cons, min_add_add_right, ih]
  cases l with
  | nil => exact absurd rfl hne
  | cons a t =>
    rw [listMinQ, listMinQ]
    simp only [List.map_cons, List.headD_cons]
    exact haux (a :: t) a

/-- Translating every entry translates the maximum. -/
theorem listMaxQ_map_add (l : List ℚ) (d : ℚ) (hne : l ≠ []) :
    listMaxQ (l.map (fun v => v + d)) = listMaxQ l + d := by
  have haux : ∀ (t : List ℚ) (i : ℚ),
      (t.map (fun v => v + d)).foldl max (i + d) = t.foldl max i + d := by
    intro t
    induction t with
    | nil => intro i; rfl
    | cons b s ih =>
      intro i
      rw [List.map_cons, List.foldl_cons, List.foldl_cons, max_add_add_right, ih]
  cases l with
  | nil => exact absurd rfl hne
  | cons a t =>
    rw [listMaxQ, listMaxQ]
    simp only [List.map_cons, List.headD_cons]
    exact haux (a :: t) a

/-- The bounding-box fold of the centering pass on all-3-D nodes:
component-wise strict-compare folds of the coordinate lists. -/
theorem bboxFold_eq (nodes : List Node) (h3d : ∀ n ∈ nodes, n.z.isSome) :
    ∀ acc : ℚ × ℚ × ℚ × ℚ × ℚ × ℚ,
      nodes.foldlM
        (fun st n => do
          let zv ← n.getZ
          let (xMin, yMin, zMin, xMax, yMax, zMax) := st
          let xMin := if n.x < xMin then n.x else xMin
          let yMin := if n.y < yMin then n.y else yMin
          let zMin := if zv < zMin then zv else zMin
          let xMax := if n.x > xMax then n.x else xMax
          let yMax := if n.y > yMax then n.y else yMax
          let zMax := if zv > zMax then zv else zMax
          .ok (xMin, yMin, zMin, xMax, yMax, zMax)) acc =
      Except.ok
        ((xsOf nodes).foldl (fun a v => if v < a then v else a) acc.1,
         (ysOf nodes).foldl (fun a v => if v < a then v else a) acc.2.1,
         (zsOf nodes).foldl (fun a v => if v < a then v else a) acc.2.2.1,
         (xsOf nodes).foldl (fun a v => if v > a then v else a) acc.2.2.2.1,
         (ysOf nodes).foldl (fun a v => if v > a then v else a) acc.2.2.2.2.1,
         (zsOf nodes).foldl (fun a v => if v > a then v else a) acc.2.2.2.2.2) := by
  induction nodes with
  | nil =>
    rintro ⟨a, b, c, d, e, f⟩
    simp [List.foldlM, xsOf, ysOf, zsOf, epure_eq]
  | cons n ns ih =>
    rintro ⟨a, b, c, d, e, f⟩
    obtain ⟨zv, hz⟩ := Option.isSome_iff_exists.mp (h3d n (by simp))
    rw [List.foldlM_cons]
    rw [show n.getZ = Except.ok zv from by rw [Node.getZ, hz]]
    simp only [xsOf, ysOf, zsOf, List.map_cons, List.foldl_cons, hz, Option.getD_some]
    exact ih (fun x hx => h3d x (by simp [hx]))
      (if n.x < a then n.x else a, if n.y < b then n.y else b, if zv < c then zv else c,
       if n.x > d then n.x else d, if n.y > e then n.y else e, if zv > f then zv else f)

/-- Node translation by mapM succeeds on all-3-D nodes and equals the
pure translation map. -/
theorem mapM_shift_eq (dx dy dz : ℚ) (nodes : List Node)
    (h3d : ∀ n ∈ nodes, n.z.isSome) :
    nodes.mapM (shiftNode dx dy dz) = Except.ok (nodes.map (shiftOkNode dx dy dz)) := by
  induction nodes with
  | nil => rfl
  | cons n ns ih =>
    obtain ⟨zv, hz⟩ := Option.isSome_iff_exists.mp (h3d n (by simp))
    rw [List.mapM_cons]
    rw [show shiftNode dx dy dz n = Except.ok (shiftOkNode dx dy dz n) from by
      rw [shiftNode]
      rw [show n.getZ = Except.ok zv from by rw [Node.getZ, hz]]
      rw [ebind_ok, shiftOkNode, hz]
      rfl]
    rw [ih (fun x hx => h3d x (by simp [hx]))]
    rfl

/-- The bounding-box scan of all-3-D nodes with in-range coordinates
computes the true coordinate minima and maxima. -/
theorem bboxScan_eq (nodes : List Node) (hne : nodes ≠ [])
    (h3d : ∀ n ∈ nodes, n.z.isSome)
    (hb : ∀ n ∈ nodes, -sentinel ≤ n.x ∧ n.x ≤ sentinel ∧ -sentinel ≤ n.y ∧ n.y ≤ sentinel ∧
          -sentinel ≤ n.z.getD 0 ∧ n.z.getD 0 ≤ sentinel) :
    bboxScan nodes =
      Except.ok (listMinQ (xsOf nodes), listMinQ (ysOf nodes), listMinQ (zsOf nodes),
                 listMaxQ (xsOf nodes), listMaxQ (ysOf nodes), listMaxQ (zsOf nodes)) := by
  have hxne : xsOf nodes ≠ [] := by
    cases nodes with
    | nil => exact absurd rfl hne
    | cons a t => simp [xsOf]
  have hyne : ysOf nodes ≠ [] := by
    cases nodes with
    | nil => exact absurd rfl hne
    | cons a t => simp [ysOf]
  have hzne : zsOf nodes ≠ [] := by
    cases nodes with
    | nil => exact absurd rfl hne
    | cons a t => simp [zsOf]
  have e1 : (xsOf nodes).foldl (fun a v => if v < a then v else a) sentinel =
      listMinQ (xsOf nodes) := by
    rw [foldl_qmin_min]
    exact foldl_min_absorbed (xsOf nodes) sentinel hxne (by
      intro v hv
      obtain ⟨n, hn, rfl⟩ := List.mem_map.mp hv
      exact (hb n hn).2.1)
  have e2 : (ysOf nodes).foldl (fun a v => if v < a then v else a) sentinel =
      listMinQ (ysOf nodes) := by
    rw [foldl_qmin_min]
    exact foldl_min_absorbed (ysOf nodes) sentinel hyne (by
      intro v hv
      obtain ⟨n, hn, rfl⟩ := List.mem_map.mp hv
      exact (hb n hn).2.2.2.1)
  have e3 : (zsOf nodes).foldl (fun a v => if v < a then v else a) sentinel =
      listMinQ (zsOf nodes) := by
    rw [foldl_qmin_min]
    exact foldl_min_absorbed (zsOf nodes) sentinel hzne (by
      intro v hv
      obtain ⟨n, hn, rfl⟩ := List.mem_map.mp hv
      exact (hb n hn).2.2.2.2.2)
  have e4 : (xsOf nodes).foldl (fun a v => if v > a then v else a) (-sentinel) =
      listMaxQ (xsOf nodes) := by
    rw [foldl_qmax_max]
    exact foldl_max_absorbed (xsOf nodes) (-sentinel) hxne (by
      intro v hv
      obtain ⟨n, hn, rfl⟩ := List.mem_map.mp hv
      exact (hb n hn).1)
  have e5 : (ysOf nodes).foldl (fun a v => if v > a then v else a) (-sentinel) =
      listMaxQ (ysOf nodes) := by
    rw [foldl_qmax_max]
    exact foldl_max_absorbed (ysOf nodes) (-sentinel) hyne (by
      intro v hv
      obtain ⟨n, hn, rfl⟩ := List.mem_map.mp hv
      exact (hb n hn).2.2.1)
  have e6 : (zsOf nodes).foldl (fun a v => if v > a then v else a) (-sentinel) =
      listMaxQ (zsOf nodes) := by
    rw [foldl_qmax_max]
    exact foldl_max_absorbed (zsOf nodes) (-sentinel) hzne (by
      intro v hv
      obtain ⟨n, hn, rfl⟩ := List.mem_map.mp hv
      exact (hb n hn).2.2.2.2.1)
  rw [bboxScan, bboxFold_eq nodes h3d (sentinel, sentinel, sentinel, -sentinel, -sentinel, -sentinel)]
  dsimp only
  rw [e1, e2, e3, e4, e5, e6]

/-- Translating all-3-D nodes by zero changes nothing. -/
theorem map_shift_zero (nodes : List Node) (h3d : ∀ n ∈ nodes, n.z.isSome) :
    nodes.map (shiftOkNode 0 0 0) = nodes := by
  induction nodes with
  | nil => rfl
  | cons n ns ih =>
    obtain ⟨zv, hz⟩ := Option.isSome_iff_exists.mp (h3d n (by simp))
    rw [List.map_cons, ih (fun x hx => h3d x (by simp [hx]))]
    cases n with
    | mk i x y z =>
      simp only at hz
      subst hz
      simp [shiftOkNode]

/-- C4 (counterexample): with centering enabled, a mesh containing a 2-D
node is not treated as having z = 0: the bounding-box scan reads the
missing z attribute and the run aborts with an AttributeError. -/
theorem c4_2d_node_attribute_error :
    centerMeshNodes [{ id := 1, x := 0, y := 0, z := none }] =
      Except.error PErr.attributeError := by
  decide

/-- C4 (amended): with centering enabled, for every nonempty mesh all of
whose nodes carry 3 coordinates lying within the 1.e12 sentinels, the
transform computes the axis-aligned bounding box over all node
coordinates and translates every node so the box's centre moves to the
origin (a 2-D node instead aborts with an AttributeError rather than
being treated as z = 0). -/
theorem c4_centering_3d (nodes : List Node) (hne : nodes ≠ [])
    (h3d : ∀ n ∈ nodes, n.z.isSome)
    (hb : ∀ n ∈ nodes, -sentinel ≤ n.x ∧ n.x ≤ sentinel ∧ -sentinel ≤ n.y ∧ n.y ≤ sentinel ∧
          -sentinel ≤ n.z.getD 0 ∧ n.z.getD 0 ≤ sentinel) :
    centerMeshNodes nodes =
      Except.ok (nodes.map (shiftOkNode (dxOf nodes) (dyOf nodes) (dzOf nodes))) ∧
    listMinQ (xsOf (nodes.map (shiftOkNode (dxOf nodes) (dyOf nodes) (dzOf nodes)))) +
      listMaxQ (xsOf (nodes.map (shiftOkNode (dxOf nodes) (dyOf nodes) (dzOf nodes)))) = 0 ∧
    listMinQ (ysOf (nodes.map (shiftOkNode (dxOf nodes) (dyOf nodes) (dzOf nodes)))) +
      listMaxQ (ysOf (nodes.map (shiftOkNode (dxOf nodes) (dyOf nodes) (dzOf nodes)))) = 0 ∧
    listMinQ (zsOf (nodes.map (shiftOkNode (dxOf nodes) (dyOf nodes) (dzOf nodes)))) +
      listMaxQ (zsOf (nodes.map (shiftOkNode (dxOf nodes) (dyOf nodes) (dzOf nodes)))) = 0 := by
  have hxne : xsOf nodes ≠ [] := by
    cases nodes with
    | nil => exact absurd rfl hne
    | cons a t => simp [xsOf]
  have hyne : ysOf nodes ≠ [] := by
    cases nodes with
    | nil => exact absurd rfl hne
    | cons a t => simp [ysOf]
  have hzne : zsOf nodes ≠ [] := by
    cases nodes with
    | nil => exact absurd rfl hne
    | cons a t => simp [zsOf]
  have hxmap : xsOf (nodes.map (shiftOkNode (dxOf nodes) (dyOf nodes) (dzOf nodes))) =
      (xsOf nodes).map (fun v => v + dxOf nodes) := by
    simp only [xsOf, List.map_map]
    rfl
  have hymap : ysOf (nodes.map (shiftOkNode (dxOf nodes) (dyOf nodes) (dzOf nodes))) =
      (ysOf nodes).map (fun v => v + dyOf nodes) := by
    simp only [ysOf, List.map_map]
    rfl
  have hzmap : zsOf (nodes.map (shiftOkNode (dxOf nodes) (dyOf nodes) (dzOf nodes))) =
      (zsOf nodes).map (fun v => v + dzOf nodes) := by
    simp only [zsOf, List.map_map]
    rfl
  refine ⟨?_, ?_, ?_, ?_⟩
  · rw [centerMeshNodes, bboxScan_eq nodes hne h3d hb]
    show (if dxOf nodes = dyOf nodes ∧ dyOf nodes = dzOf nodes ∧ dzOf nodes = 0
          then Except.ok nodes
          else nodes.mapM (shiftNode (dxOf nodes) (dyOf nodes) (dzOf nodes))) = _
    by_cases hzero : dxOf nodes = dyOf nodes ∧ dyOf nodes = dzOf nodes ∧ dzOf nodes = 0
    · rw [if_pos hzero]
      obtain ⟨h1, h2, h3⟩ := hzero
      rw [h1, h2, h3, map_shift_zero nodes h3d]
    · rw [if_neg hzero]
      exact mapM_shift_eq (dxOf nodes) (dyOf nodes) (dzOf nodes) nodes h3d
  · rw [hxmap, listMinQ_map_add (xsOf nodes) (dxOf nodes) hxne,
        listMaxQ_map_add (xsOf nodes) (dxOf nodes) hxne]
    simp only [dxOf]
    ring
  · rw [hymap, listMinQ_map_add (ysOf nodes) (dyOf nodes) hyne,
        listMaxQ_map_add (ysOf nodes) (dyOf nodes) hyne]
    simp only [dyOf]
    ring
  · rw [hzmap, listMinQ_map_add (zsOf nodes) (dzOf nodes) hzne,
        listMaxQ_map_add (zsOf nodes) (dzOf nodes) hzne]
    simp only [dzOf]
    ring

/-- C4 (witness): the right triangle (0,0,0), (10,0,0), (0,10,0) with
centering enabled is translated to (-5,-5,0), (5,-5,0), (-5,5,0). -/
theorem c4_centering_witness :
    centerMeshNodes [{ id := 1, x := 0, y := 0, z := some 0 },
                     { id := 2, x := 10, y := 0, z := some 0 },
                     { id := 3, x := 0, y := 10, z := some 0 }] =
      Except.ok [{ id := 1, x := -5, y := -5, z := some 0 },
                 { id := 2, x := 5, y := -5, z := some 0 },
                 { id := 3, x := -5, y := 5, z := some 0 }] := by
  have h := (c4_centering_3d
    [{ id := 1, x := 0, y := 0, z := some 0 },
     { id := 2, x := 10, y := 0, z := some 0 },
     { id := 3, x := 0, y := 10, z := some 0 }]
    (by decide) (by decide) (by decide)).1
  rw [h]
  norm_num [dxOf, dyOf, dzOf, listMinQ, listMaxQ, xsOf, ysOf, zsOf, shiftOkNode,
            min_def, max_def]

/-- C8: if any step of the pipeline before the final write fails — the
mesh input file missing or malformed, the header or footer file missing,
or a transformation error — Build leaves the file system, and in
particular the output path's prior contents, untouched: the output file
is only opened after every fallible step has succeeded. -/
theorem c8_no_output_on_failure (cfg : Config) (w : World) (e : PErr)
    (hfail : (build cfg w).2 = Except.error e) :
    (build cfg w).1 = w ∧
    (build cfg w).1.lookup cfg.output = w.lookup cfg.output := by
  have hfst : (build cfg w).1 = w := by
    unfold build at hfail ⊢
    cases h1 : readInp w cfg.input with
    | error e1 => simp only [h1]
    | ok ls =>
      simp only [h1] at hfail ⊢
      cases h2 : runParse ls (effNodesPerElem cfg) with
      | error e2 => simp only [h2]
      | ok mesh =>
        simp only [h2] at hfail ⊢
        cases h3 : readOptText w cfg.header with
        | error e3 => simp only [h3]
        | ok hdr =>
          simp only [h3] at hfail ⊢
          cases h4 : readOptText w cfg.footer with
          | error e4 => simp only [h4]
          | ok ftr =>
            simp only [h4] at hfail ⊢
            cases h5 : transform cfg mesh with
            | error e5 => simp only [h5]
            | ok mesh2 =>
              simp only [h5] at hfail
              exact absurd hfail (by simp)
  exact ⟨hfst, by rw [hfst]⟩

/-- C8 (witness): a run whose configured input file does not exist fails
with NotFound and leaves the (empty) file system unchanged. -/
theorem c8_missing_input_witness :
    (build { input := "m.inp", output := "o.txt", header := none, footer := none,
             nodesPerElem := none, centerMesh := false, conf_elsets := [], conf_nsets := [],
             customInputs := [] } { files := [] }).2 = Except.error PErr.notFound ∧
    (build { input := "m.inp", output := "o.txt", header := none, footer := none,
             nodesPerElem := none, centerMesh := false, conf_elsets := [], conf_nsets := [],
             customInputs := [] } { files := [] }).1 = { files := [] } := by
  refine ⟨by decide, ?_⟩
  exact (c8_no_output_on_failure
    { input := "m.inp", output := "o.txt", header := none, footer := none,
      nodesPerElem := none, centerMesh := false, conf_elsets := [], conf_nsets := [],
      customInputs := [] } { files := [] } PErr.notFound (by decide)).1

/-- C10: a recognised section marker never converts or reports a pending
element buffer: *Node, *Nset and *Elset leave the buffer, the element
list and the diagnostics unchanged, *Element silently clears the buffer
without creating an element or a diagnostic, and the misaligned-data
diagnostic is emitted exactly when an unrecognised marker line is met
with a nonempty buffer; the mesh returned at end of input is assembled
from the accumulated element list only, so integers still pending there
are dropped silently. -/
theorem c10_leftover_buffer_silent (k : Nat) (s : PState)
    (pairs : List (String × String)) (bares : List String) :
    (step k s (Line.marker "*Node" pairs bares) =
       Except.ok { s with mode := Mode.readNodes }) ∧
    (step k s (Line.marker "*Element" pairs bares) =
       Except.ok { s with mode := Mode.readElems, elemInput := [] }) ∧
    (step k s (Line.marker "*Nset" pairs bares) =
       Except.ok { s with
                   mode := Mode.readNset
                   nsets := s.nsets ++ [{ nodes := []
                                          name := lastAssign "nset" "UNKNOWN_NSET" pairs
                                          setBoun := ""
                                          setLoad := "" }] }) ∧
    (step k s (Line.marker "*Elset" pairs bares) =
       Except.ok { s with
                   mode := Mode.readElset
                   elsets := s.elsets ++ [{ elems := []
                                            name := lastAssign "elset" "UNKNOWN_ELSET" pairs
                                            setMat := 1
                                            generate := bares.contains "generate"
                                            duplicate := [] }] }) ∧
    (∀ kind : String, kind ∉ ["*Node", "*Element", "*Nset", "*Elset"] → s.elemInput ≠ [] →
       step k s (Line.marker kind pairs bares) =
         Except.ok { s with
                     mode := Mode.unknown
                     warnings := s.warnings ++ [Warn.misaligned s.elemInput.length] }) ∧
    (∀ kind : String, kind ∉ ["*Node", "*Element", "*Nset", "*Elset"] → s.elemInput = [] →
       step k s (Line.marker kind pairs bares) =
         Except.ok { s with mode := Mode.unknown }) ∧
    (∀ (ls : List Line) (npe : Option Int) (s2 : PState),
       parseLines 0 (initState npe) ls = Except.ok s2 →
       runParse ls npe =
         Except.ok { nodes := s2.nodes, elems := s2.elems, nsets := s2.nsets,
                     elsets := s2.elsets }) := by
  refine ⟨by simp [step], by simp [step], by simp [step], by simp [step], ?_, ?_, ?_⟩
  · intro kind hk hbuf
    simp only [List.mem_cons, List.mem_singleton, not_or] at hk
    obtain ⟨h1, h2, h3, h4, _⟩ := hk
    have hlen : s.elemInput.length ≠ 0 := by
      intro h0
      exact hbuf (List.length_eq_zero.mp h0)
    simp [step, h1, h2, h3, h4, hlen]
  · intro kind hk hbuf
    simp only [List.mem_cons, List.mem_singleton, not_or] at hk
    obtain ⟨h1, h2, h3, h4, _⟩ := hk
    simp [step, h1, h2, h3, h4, hbuf]
  · intro ls npe s2 hs2
    rw [runParse, hs2]

/-- C10 (witness): with a pending buffer of two integers, a *Node marker
leaves the buffer, elements and diagnostics unchanged, while an
unrecognised marker emits exactly the misaligned-data diagnostic. -/
theorem c10_buffer_witness :
    step 0 { mode := Mode.readElems, numNodesKnown := true, numNodes := 4, nDim := 3,
             nodes := [], elems := [], nsets := [], elsets := [], elemInput := [7, 8],
             warnings := [], ignored := [] } (Line.marker "*Node" [] []) =
      Except.ok { mode := Mode.readNodes, numNodesKnown := true, numNodes := 4, nDim := 3,
                  nodes := [], elems := [], nsets := [], elsets := [], elemInput := [7, 8],
                  warnings := [], ignored := [] } ∧
    step 0 { mode := Mode.readElems, numNodesKnown := true, numNodes := 4, nDim := 3,
             nodes := [], elems := [], nsets := [], elsets := [], elemInput := [7, 8],
             warnings := [], ignored := [] } (Line.marker "** comment" [] []) =
      Except.ok { mode := Mode.unknown, numNodesKnown := true, numNodes := 4, nDim := 3,
                  nodes := [], elems := [], nsets := [], elsets := [], elemInput := [7, 8],
                  warnings := [Warn.misaligned 2], ignored := [] } := by
  constructor
  · exact (c10_leftover_buffer_silent 0
      { mode := Mode.readElems, numNodesKnown := true, numNodes := 4, nDim := 3,
        nodes := [], elems := [], nsets := [], elsets := [], elemInput := [7, 8],
        warnings := [], ignored := [] } [] []).1
  · exact (c10_leftover_buffer_silent 0
      { mode := Mode.readElems, numNodesKnown := true, numNodes := 4, nDim := 3,
        nodes := [], elems := [], nsets := [], elsets := [], elemInput := [7, 8],
        warnings := [], ignored := [] } [] []).2.2.2.2.1 "** comment" (by decide) (by decide)

/-- C9: Node construction performs no sign validation on the id: for any
integer id token — zero or negative included — followed by 2 or 3 numeric
coordinate tokens, construction succeeds and stores the given id
unchanged. -/
theorem c9_node_id_unvalidated (nid : Int) (rest : List Tok)
    (hnum : ∀ t ∈ rest, ∃ q, pyFloat t = Except.ok q)
    (hlen : rest.length = 2 ∨ rest.length = 3) :
    ∃ n : Node, mkNode (Tok.intTok nid :: rest) = Except.ok n ∧ n.id = nid := by
  rcases hlen with h2 | h3
  · obtain ⟨a, b, rfl⟩ := List.length_eq_two.mp h2
    obtain ⟨qa, ha⟩ := hnum a (by simp)
    obtain ⟨qb, hb⟩ := hnum b (by simp)
    exact ⟨{ id := nid, x := qa, y := qb, z := none },
      by simp [mkNode, pyInt, ha, hb, Bind.bind, Except.bind], rfl⟩
  · obtain ⟨a, b, c, rfl⟩ := List.length_eq_three.mp h3
    obtain ⟨qa, ha⟩ := hnum a (by simp)
    obtain ⟨qb, hb⟩ := hnum b (by simp)
    obtain ⟨qc, hc⟩ := hnum c (by simp)
    exact ⟨{ id := nid, x := qa, y := qb, z := some qc },
      by simp [mkNode, pyInt, ha, hb, hc, Bind.bind, Except.bind], rfl⟩

/-- Number of elements built from a pair sequence: one per pair. -/
theorem dupAll_length (lastId : Int) (ps : List (Element × Int)) :
    ∀ i, (dupAll lastId i ps).length = ps.length := by
  induction ps with
  | nil => intro i; simp [dupAll]
  | cons p ps ih => intro i; simp [dupAll, ih (i + 1)]

/-- Splitting a pair sequence shifts the running index of the second
part by the length of the first. -/
theorem dupAll_append (lastId : Int) (A B : List (Element × Int)) :
    ∀ i, dupAll lastId i (A ++ B) = dupAll lastId i A ++ dupAll lastId (i + A.length) B := by
  induction A with
  | nil => intro i; simp [dupAll]
  | cons p ps ih =>
    intro i
    have h : i + (ps.length + 1) = i + 1 + ps.length := by omega
    simp [dupAll, ih (i + 1), h]

/-- Inner fold of the duplication pass on an element with nonempty node
list: appends one new element per duplicate entry, with sequentially
increasing ids. -/
theorem dupFoldAux (lastId : Int) (e : Element) (hne : e.nodes.length ≠ 0) :
    ∀ (d : List Int) (acc : List Element),
      List.foldlM (fun acc2 mt =>
          if e.nodes.length = 0 then Except.error PErr.valueError
          else Except.ok (acc2 ++ [{ id := lastId + (acc2.length : Int) + 1
                                     numNodes := e.nodes.length
                                     nodes := e.nodes
                                     matn := mt
                                     duplicate := [] }])) acc d =
        Except.ok (acc ++ dupAll lastId acc.length (d.map (fun m => (e, m)))) := by
  intro d
  induction d with
  | nil => intro acc; simp [List.foldlM, dupAll, epure_eq]
  | cons m ms ih =>
    intro acc
    rw [List.foldlM_cons, if_neg hne, ebind_ok]
    rw [ih]
    simp [dupAll, mkDup, List.append_assoc]

/-- The behaviour of dupOne on an element with nonempty node list. -/
theorem dupOne_eq (lastId : Int) (e : Element) (acc : List Element)
    (hne : e.nodes.length ≠ 0) :
    dupOne lastId e acc =
      Except.ok (acc ++ dupAll lastId acc.length (e.duplicate.map (fun m => (e, m)))) := by
  unfold dupOne
  exact dupFoldAux lastId e hne e.duplicate acc

/-- Outer fold of the duplication pass: the collected new elements are
exactly one per (element, duplicate entry) pair in visiting order. -/
theorem dupPassFold (lastId : Int) (es : List Element) :
    (∀ e ∈ es, e.duplicate.length > 0 → e.nodes.length ≠ 0) →
    ∀ acc : List Element,
      List.foldlM
        (fun acc e => if e.duplicate.length > 0 then dupOne lastId e acc else Except.ok acc)
        acc es =
        Except.ok (acc ++ dupAll lastId acc.length (dupPairs es)) := by
  induction es with
  | nil => intro _ acc; simp [List.foldlM, dupPairs, dupAll, epure_eq]
  | cons e es ih =>
    intro hyp acc
    rw [List.foldlM_cons]
    by_cases hd : e.duplicate.length > 0
    · rw [if_pos hd, dupOne_eq lastId e acc (hyp e (by simp) hd)]
      rw [ebind_ok,
          ih (fun x hx h2 => hyp x (by simp [hx]) h2)
             (acc ++ dupAll lastId acc.length (e.duplicate.map (fun m => (e, m))))]
      have hlen : (acc ++ dupAll lastId acc.length (e.duplicate.map (fun m => (e, m)))).length =
          acc.length + e.duplicate.length := by
        simp [dupAll_length]
      rw [hlen]
      have hpairs : dupPairs (e :: es) = e.duplicate.map (fun m => (e, m)) ++ dupPairs es := by
        simp [dupPairs]
      rw [hpairs, dupAll_append]
      simp [List.append_assoc]
    · rw [if_neg hd, ebind_ok, ih (fun x hx h2 => hyp x (by simp [hx]) h2) acc]
      have hdup : e.duplicate = [] := by
        cases h : e.duplicate with
        | nil => rfl
        | cons a l => rw [h] at hd; simp at hd
      have hpairs : dupPairs (e :: es) = dupPairs es := by
        simp [dupPairs, hdup]
      rw [hpairs]

/-- C1 (counterexample): the fresh ids of the duplication pass are based
on the id of the LAST element of the original element list, not on the
maximum id across the mesh: with elements of ids 100 (to be duplicated
with material 5) and 50, in that order, the new element receives id
50 + 0 + 1 = 51 and not 100 + 0 + 1 = 101 as the claim requires. -/
theorem c1_dup_id_uses_last_not_max :
    duplicatePass [{ id := 100, numNodes := 2, nodes := [1, 2], matn := 1, duplicate := [5] },
                   { id := 50, numNodes := 2, nodes := [3, 4], matn := 1, duplicate := [] }] =
      Except.ok [{ id := 100, numNodes := 2, nodes := [1, 2], matn := 1, duplicate := [5] },
                 { id := 50, numNodes := 2, nodes := [3, 4], matn := 1, duplicate := [] },
                 { id := 51, numNodes := 2, nodes := [1, 2], matn := 5, duplicate := [] }] ∧
    (∀ e ∈ [({ id := 100, numNodes := 2, nodes := [1, 2], matn := 1, duplicate := [5] } : Element),
            { id := 50, numNodes := 2, nodes := [3, 4], matn := 1, duplicate := [] }],
       e.id ≤ 100) ∧
    (51 : Int) ≠ 100 + 0 + 1 := by
  refine ⟨by decide, by decide, by decide⟩

/-- C1 (amended): for every element carrying a nonempty duplicateMaterials
list (and a nonempty node list), the duplication pass creates one new
element per entry with the same node references, that entry as material
tag and an empty duplicate list, with id = (id of the LAST element of the
original element list) + (count of new elements already created in this
pass) + 1; the original elements are unchanged and the new elements are
appended only after the full pass, so duplicates of duplicates never
occur. -/
theorem c1_duplication_pass (elems : List Element)
    (hok : ∀ e ∈ elems, e.duplicate.length > 0 → e.nodes.length ≠ 0) :
    duplicatePass elems =
      Except.ok (elems ++ dupAll (lastElemId elems) 0 (dupPairs elems)) ∧
    ∀ x ∈ dupAll (lastElemId elems) 0 (dupPairs elems), x.duplicate = [] := by
  constructor
  · unfold duplicatePass
    rw [dupPassFold (lastElemId elems) elems hok []]
    simp
  · have h : ∀ (i : Nat) (ps : List (Element × Int)),
        ∀ x ∈ dupAll (lastElemId elems) i ps, x.duplicate = [] := by
      intro i ps
      induction ps generalizing i with
      | nil => simp [dupAll]
      | cons p ps ih =>
        intro x hx
        rcases (List.mem_cons).mp hx with rfl | hx2
        · rfl
        · exact ih (i + 1) x hx2
    exact h 0 (dupPairs elems)

/-- C1 (witness): the spec's example with the maximum id also last: an
element of id 100 with duplicateMaterials [5, 7] yields new elements of
ids 101 and 102, identical node references, material tags 5 and 7, and
the original material tag unchanged. -/
theorem c1_duplication_witness :
    duplicatePass [{ id := 100, numNodes := 2, nodes := [1, 2], matn := 1, duplicate := [5, 7] }] =
      Except.ok [{ id := 100, numNodes := 2, nodes := [1, 2], matn := 1, duplicate := [5, 7] },
                 { id := 101, numNodes := 2, nodes := [1, 2], matn := 5, duplicate := [] },
                 { id := 102, numNodes := 2, nodes := [1, 2], matn := 7, duplicate := [] }] := by
  rw [(c1_duplication_pass
        [{ id := 100, numNodes := 2, nodes := [1, 2], matn := 1, duplicate := [5, 7] }]
        (by decide)).1]
  decide

/-- Fewer than a full chunk of values is always left over. -/
theorem chunkRest_length_lt (n : Nat) (hn : 0 < n) (l : List Int) (hl : l.length < n) :
    chunkRest n l = l := by
  rw [chunkRest, dif_neg]
  omega

/-- Leftover values number strictly fewer than the chunk size. -/
theorem chunkRest_lt (n : Nat) (hn : 0 < n) (l : List Int) :
    (chunkRest n l).length < n := by
  rw [chunkRest]
  split
  case isTrue h => exact chunkRest_lt n hn (l.drop n)
  case isFalse h => omega
termination_by l.length
decreasing_by
  simp only [List.length_drop]
  omega

/-- Unfolding of chunkExact when a full chunk is available. -/
theorem chunkExact_pos (n : Nat) (l : List Int) (h : 0 < n ∧ n ≤ l.length) :
    chunkExact n l = l.take n :: chunkExact n (l.drop n) := by
  rw [chunkExact, dif_pos h]

/-- Unfolding of chunkExact when no full chunk is available. -/
theorem chunkExact_neg (n : Nat) (l : List Int) (h : ¬ (0 < n ∧ n ≤ l.length)) :
    chunkExact n l = [] := by
  rw [chunkExact, dif_neg h]

/-- Unfolding of chunkRest when a full chunk is available. -/
theorem chunkRest_pos (n : Nat) (l : List Int) (h : 0 < n ∧ n ≤ l.length) :
    chunkRest n l = chunkRest n (l.drop n) := by
  conv_lhs => rw [chunkRest]
  rw [dif_pos h]

/-- Unfolding of chunkRest when no full chunk is available. -/
theorem chunkRest_neg (n : Nat) (l : List Int) (h : ¬ (0 < n ∧ n ≤ l.length)) :
    chunkRest n l = l := by
  conv_lhs => rw [chunkRest]
  rw [dif_neg h]

/-- Greedy chunking online: the full chunks of a concatenation are the
full chunks of the first part followed by those of its leftover glued to
the second part, and the final leftover likewise only depends on the
first part through its leftover. -/
theorem chunk_append (n : Nat) (hn : 0 < n) (A B : List Int) :
    chunkExact n (A ++ B) = chunkExact n A ++ chunkExact n (chunkRest n A ++ B) ∧
    chunkRest n (A ++ B) = chunkRest n (chunkRest n A ++ B) := by
  by_cases h : n ≤ A.length
  · have htake : (A ++ B).take n = A.take n := List.take_append_of_le_length h
    have hdrop : (A ++ B).drop n = A.drop n ++ B := List.drop_append_of_le_length h
    have hab : 0 < n ∧ n ≤ (A ++ B).length := by
      constructor
      · exact hn
      · rw [List.length_append]; omega
    have ih := chunk_append n hn (A.drop n) B
    constructor
    · rw [chunkExact_pos n (A ++ B) hab, htake, hdrop, ih.1,
          chunkExact_pos n A (And.intro hn h), chunkRest_pos n A (And.intro hn h)]
      simp
    · rw [chunkRest_pos n (A ++ B) hab, hdrop, ih.2, chunkRest_pos n A (And.intro hn h)]
  · have hA : A.length < n := by omega
    have h1 : chunkExact n A = [] := chunkExact_neg n A (by omega)
    have h2 : chunkRest n A = A := chunkRest_length_lt n hn A hA
    rw [h1, h2]
    simp
termination_by A.length
decreasing_by
  simp only [List.length_drop]
  omega

/-- Number of full chunks: the integer quotient of the stream length by
the chunk size. -/
theorem chunkExact_length (n : Nat) (hn : 0 < n) (l : List Int) :
    (chunkExact n l).length = l.length / n := by
  rw [chunkExact]
  split
  case isTrue h =>
    rw [List.length_cons, chunkExact_length n hn (l.drop n)]
    simp only [List.length_drop]
    rw [Nat.div_eq_sub_div hn h.2]
  case isFalse h =>
    rw [List.length_nil, Eq.comm, Nat.div_eq_of_lt]
    omega
termination_by l.length
decreasing_by
  simp only [List.length_drop]
  omega

/-- The reconstruction loop consumes exactly the full chunks of the
buffer, building one Element from each, and leaves the leftover. -/
theorem buildElems_eq (k : Nat) (hk : 1 ≤ k) (buf : List Int) :
    buildElems (1 + (k : Int)) buf =
      Except.ok ((chunkExact (1 + k) buf).map elemOfChunk, chunkRest (1 + k) buf) := by
  have hsz : ((1 : Int) + (k : Int)).toNat = 1 + k := by omega
  by_cases h : 1 + k ≤ buf.length
  · rw [buildElems, dif_pos (by push_cast; omega), dif_neg (by omega), hsz]
    rw [show elementOfInts (buf.take (1 + k)) = Except.ok (elemOfChunk (buf.take (1 + k))) from by
      rw [elementOfInts, if_neg (by rw [List.length_take]; omega)]
      rfl]
    rw [buildElems_eq k hk (buf.drop (1 + k))]
    rw [chunkExact_pos (1 + k) buf (And.intro (by omega) h),
        chunkRest_pos (1 + k) buf (And.intro (by omega) h)]
    simp
  · rw [buildElems, dif_neg (by push_cast; omega)]
    rw [chunkExact_neg (1 + k) buf (by omega), chunkRest_neg (1 + k) buf (by omega)]
    rfl
termination_by buf.length
decreasing_by
  simp only [List.length_drop]
  omega

/-- Fold of the per-line element handler over a stream of data lines:
starting from a buffer shorter than one record, the elements produced are
exactly one per full chunk of the concatenated stream. -/
theorem feedElemInts_fold (k : Nat) (hk : 1 ≤ k) (lines : List (List Int)) :
    ∀ (buf : List Int) (elems : List Element), buf.length < 1 + k →
      List.foldlM (fun (st : List Int × List Element) ints =>
          feedElemInts (1 + (k : Int)) st.1 st.2 ints) (buf, elems) lines =
        Except.ok (chunkRest (1 + k) (buf ++ lines.flatten),
                   elems ++ (chunkExact (1 + k) (buf ++ lines.flatten)).map elemOfChunk) := by
  induction lines with
  | nil =>
    intro buf elems hb
    rw [List.flatten_nil, List.append_nil]
    rw [chunkExact_neg (1 + k) buf (by omega),
        chunkRest_length_lt (1 + k) (by omega) buf hb]
    simp [List.foldlM, epure_eq]
  | cons l ls ih =>
    intro buf elems hb
    rw [List.foldlM_cons]
    rw [show feedElemInts (1 + (k : Int)) buf elems l =
          Except.ok (chunkRest (1 + k) (buf ++ l),
                     elems ++ (chunkExact (1 + k) (buf ++ l)).map elemOfChunk) by
        rw [feedElemInts, buildElems_eq k hk (buf ++ l)]]
    rw [ebind_ok]
    rw [ih (chunkRest (1 + k) (buf ++ l))
           (elems ++ (chunkExact (1 + k) (buf ++ l)).map elemOfChunk)
           (chunkRest_lt (1 + k) (by omega) (buf ++ l))]
    rw [List.flatten_cons, show buf ++ (l ++ ls.flatten) = (buf ++ l) ++ ls.flatten from by
          rw [List.append_assoc]]
    have hca := chunk_append (1 + k) (by omega) (buf ++ l) ls.flatten
    rw [hca.1, hca.2]
    simp [List.append_assoc]

/-- C5: with a pre-declared nodesPerElement = k, the element-section
reader appends the integers of each data line to a pending buffer and
consumes the front 1 + k values into one Element (first value the id, the
remaining k the node references) while at least 1 + k remain, so a flat
stream of m integers yields exactly m / (1 + k) elements regardless of
how the integers are split across physical lines. -/
theorem c5_element_reconstruction (k : Nat) (hk : 1 ≤ k) (lines : List (List Int)) :
    List.foldlM (fun (st : List Int × List Element) ints =>
        feedElemInts (1 + (k : Int)) st.1 st.2 ints) ([], []) lines =
      Except.ok (chunkRest (1 + k) lines.flatten,
                 (chunkExact (1 + k) lines.flatten).map elemOfChunk) ∧
    ((chunkExact (1 + k) lines.flatten).map elemOfChunk).length = lines.flatten.length / (1 + k) := by
  constructor
  · have h := feedElemInts_fold k hk lines [] [] (by simp)
    simpa using h
  · rw [List.length_map]
    exact chunkExact_length (1 + k) (by omega) lines.flatten

/-- C5 (witness): with k = 2, the 7-integer stream 1, 11, 12, 2, 21, 22, 3
split unevenly over three physical lines yields exactly 7 / 3 = 2 elements
(ids 1 and 2, node references [11, 12] and [21, 22]) and a 1-integer
leftover. -/
theorem c5_reconstruction_witness :
    List.foldlM (fun (st : List Int × List Element) ints =>
        feedElemInts (1 + ((2 : Nat) : Int)) st.1 st.2 ints) ([], [])
        [[1, 11, 12], [2, 21], [22, 3]] =
      Except.ok ([3],
        [{ id := 1, numNodes := 2, nodes := [11, 12], matn := 1, duplicate := [] },
         { id := 2, numNodes := 2, nodes := [21, 22], matn := 1, duplicate := [] }]) ∧
    (7 : Nat) / 3 = 2 := by
  have h := (c5_element_reconstruction 2 (by decide) [[1, 11, 12], [2, 21], [22, 3]]).1
  have hj : ([[1, 11, 12], [2, 21], [22, 3]] : List (List Int)).flatten =
      [1, 11, 12, 2, 21, 22, 3] := rfl
  rw [hj] at h
  have e1 : chunkExact 3 [1, 11, 12, 2, 21, 22, 3] = [[1, 11, 12], [2, 21, 22]] := by
    rw [chunkExact_pos 3 [1, 11, 12, 2, 21, 22, 3] (by decide)]
    rw [show List.drop 3 [1, 11, 12, 2, 21, 22, 3] = ([2, 21, 22, 3] : List Int) from rfl]
    rw [chunkExact_pos 3 [2, 21, 22, 3] (by decide)]
    rw [show List.drop 3 [2, 21, 22, 3] = ([3] : List Int) from rfl]
    rw [chunkExact_neg 3 [3] (by decide)]
    rfl
  have e2 : chunkRest 3 [1, 11, 12, 2, 21, 22, 3] = [3] := by
    rw [chunkRest_pos 3 [1, 11, 12, 2, 21, 22, 3] (by decide)]
    rw [show List.drop 3 [1, 11, 12, 2, 21, 22, 3] = ([2, 21, 22, 3] : List Int) from rfl]
    rw [chunkRest_pos 3 [2, 21, 22, 3] (by decide)]
    rw [show List.drop 3 [2, 21, 22, 3] = ([3] : List Int) from rfl]
    exact chunkRest_neg 3 [3] (by decide)
  rw [e1, e2] at h
  exact ⟨h, by decide⟩

/-- C9 (witness): the test input Node(-22, 0.7070, 1.4142, -0.5) from the
repository's test suite: construction succeeds and stores the negative
id -22. -/
theorem c9_negative_id_witness :
    ∃ n : Node,
      mkNode [Tok.intTok (-22), Tok.floatTok (707 / 1000), Tok.floatTok (14142 / 10000),
              Tok.floatTok (-1 / 2)] = Except.ok n ∧ n.id = -22 :=
  c9_node_id_unvalidated (-22)
    [Tok.floatTok (707 / 1000), Tok.floatTok (14142 / 10000), Tok.floatTok (-1 / 2)]
    (by intro t ht
        fin_cases ht <;> exact ⟨_, rfl⟩)
    (Or.inr rfl)

end Inp2feap
